import Mathlib

/-!
Verification of the claude-cost ingestion/aggregation core.

Shallow embedding of the TypeScript sources:
  * `src/pricing.ts`  — pricing table, `getPricing`, `calculateCost`,
    `getModelDisplayName`;
  * `src/parser.ts`   — per-line event parsing, the file cache, corpus
    loading (`parseAllUsage`), `computeStats`, `formatCost`, `formatTokens`;
  * `src/index.tsx`   — the non-interactive (`--json`) output path.

Conventions of the embedding:
  * JavaScript numbers holding dollar amounts are modelled as `ℚ`
    (exact arithmetic; every pricing constant is a finite decimal).
  * Timestamps and file modification times (`Date.getTime()`, `mtimeMs`)
    are modelled as `ℤ` milliseconds.
  * Token counts are `ℕ`.
  * JavaScript `Map` / object-literal records that are keyed and updated
    in insertion order are modelled as association lists updated in the
    same order.
  * `Array.prototype.sort` (stable since ES2019) is modelled by
    `jsSortBy`, a stable insertion sort: a stable sort's output is
    uniquely determined by the comparator and the input order, so any
    stable sort is a faithful model.
  * Wall-clock / timezone dependence (`new Date()` in `computeStats`,
    `getFullYear`/`getMonth`/`getDate`/`getHours` in local time) is made
    explicit: `computeStats` takes the day key function, the hour
    function and today's start as parameters.
-/

namespace ClaudeCost

/-- JavaScript `hay.includes(needle)` on strings, as contiguous
sublist containment of character lists.  `needle = []` is contained in
everything, matching JS (`"x".includes("") === true`). -/
def containsChars : List Char → List Char → Bool
  | _, [] => true
  | [], _ :: _ => false
  | c :: cs, needle => (needle.isPrefixOf (c :: cs)) || containsChars cs needle

/-- JavaScript `hay.includes(needle)`. -/
def strIncludes (hay needle : String) : Bool :=
  containsChars hay.toList needle.toList

/-- JavaScript `String.prototype.toLowerCase` (ASCII-lowering is all the
model identifiers need). -/
def jsToLower (s : String) : String := ⟨s.data.map Char.toLower⟩

/-! Embedding: pricing.ts -/

/-- The `interface ModelPricing` (pricing.ts lines 4-9): dollars per million
tokens of each kind. -/
structure ModelPricing where
  input : ℚ
  output : ℚ
  cacheWrite : ℚ
  cacheRead : ℚ
deriving DecidableEq, Repr

/-- Table `MODEL_PRICING` (pricing.ts lines 13-105), as an association list in
the object literal's key order (JS `Object.entries` iterates string keys
in insertion order). -/
def MODEL_PRICING : List (String × ModelPricing) :=
  [ ("claude-opus-4-5-20251101",  ⟨5, 25, 6.25, 0.5⟩),
    ("claude-sonnet-4-5-20250929", ⟨3, 15, 3.75, 0.3⟩),
    ("claude-haiku-4-5-20251001",  ⟨0.8, 4, 1, 0.08⟩),
    ("claude-opus-4-20250514",     ⟨15, 75, 18.75, 1.5⟩),
    ("claude-sonnet-4-5-20241022", ⟨3, 15, 3.75, 0.3⟩),
    ("claude-sonnet-4-20250514",   ⟨3, 15, 3.75, 0.3⟩),
    ("claude-3-7-sonnet-20250219", ⟨3, 15, 3.75, 0.3⟩),
    ("claude-3-5-sonnet-20241022", ⟨3, 15, 3.75, 0.3⟩),
    ("claude-3-5-sonnet-20240620", ⟨3, 15, 3.75, 0.3⟩),
    ("claude-3-5-haiku-20241022",  ⟨0.8, 4, 1, 0.08⟩),
    ("claude-3-opus-20240229",     ⟨15, 75, 18.75, 1.5⟩),
    ("claude-3-sonnet-20240229",   ⟨3, 15, 3.75, 0.3⟩),
    ("claude-3-haiku-20240307",    ⟨0.25, 1.25, 0.3, 0.03⟩) ]

/-- Fallback `DEFAULT_PRICING` (pricing.ts lines 108-113). -/
def DEFAULT_PRICING : ModelPricing := ⟨3, 15, 3.75, 0.3⟩

/-- Generic association-list lookup, modelling JS object / `Map` key
lookup. -/
def lookupG {κ β : Type} [DecidableEq κ] : List (κ × β) → κ → Option β
  | [], _ => none
  | (k, v) :: rest, key => if k = key then some v else lookupG rest key

/-- The `for (const [key, pricing] of Object.entries(MODEL_PRICING))`
partial-match scan of `getPricing` (pricing.ts lines 123-127): first
entry whose key contains the lowercased model or is contained in it. -/
def partialMatch : List (String × ModelPricing) → String → Option ModelPricing
  | [], _ => none
  | (k, p) :: rest, ml =>
    if strIncludes ml (jsToLower k) || strIncludes (jsToLower k) ml then some p
    else partialMatch rest ml

/-- Function `getPricing` (pricing.ts lines 115-159): exact table lookup, then the
substring scan, then the ordered heuristic family rules, then the
default. -/
def getPricing (model : String) : ModelPricing :=
  match lookupG MODEL_PRICING model with
  | some p => p
  | none =>
    let ml := jsToLower model
    match partialMatch MODEL_PRICING ml with
    | some p => p
    | none =>
      if strIncludes ml "opus-4-5" || strIncludes ml "opus-4.5" || strIncludes ml "opus4.5" then
        ⟨5, 25, 6.25, 0.5⟩
      else if strIncludes ml "sonnet-4-5" || strIncludes ml "sonnet-4.5" || strIncludes ml "sonnet4.5" then
        ⟨3, 15, 3.75, 0.3⟩
      else if strIncludes ml "haiku-4-5" || strIncludes ml "haiku-4.5" || strIncludes ml "haiku4.5" then
        ⟨0.8, 4, 1, 0.08⟩
      else if strIncludes ml "opus-4" || strIncludes ml "opus4" then
        ⟨15, 75, 18.75, 1.5⟩
      else if strIncludes ml "sonnet-4" || strIncludes ml "sonnet4" then
        ⟨3, 15, 3.75, 0.3⟩
      else if strIncludes ml "3-5-haiku" || strIncludes ml "3.5-haiku" then
        ⟨0.8, 4, 1, 0.08⟩
      else if strIncludes ml "haiku" then
        ⟨0.25, 1.25, 0.3, 0.03⟩
      else if strIncludes ml "opus" then
        ⟨15, 75, 18.75, 1.5⟩
      else if strIncludes ml "sonnet" then
        ⟨3, 15, 3.75, 0.3⟩
      else
        DEFAULT_PRICING

/-- Function `calculateCost` (pricing.ts lines 161-176). -/
def calculateCost (model : String) (inputTokens outputTokens cacheCreationTokens cacheReadTokens : ℕ) : ℚ :=
  let pricing := getPricing model
  (inputTokens : ℚ) / 1000000 * pricing.input
    + (outputTokens : ℚ) / 1000000 * pricing.output
    + (cacheCreationTokens : ℚ) / 1000000 * pricing.cacheWrite
    + (cacheReadTokens : ℚ) / 1000000 * pricing.cacheRead

/-- Function `getModelDisplayName` (pricing.ts lines 178-194).  The final
`model.slice(0, 20)` is `String.take 20`. -/
def getModelDisplayName (model : String) : String :=
  let ml := jsToLower model
  if strIncludes ml "opus-4-5" || strIncludes ml "opus-4.5" then "Opus 4.5"
  else if strIncludes ml "sonnet-4-5" || strIncludes ml "sonnet-4.5" then "Sonnet 4.5"
  else if strIncludes ml "haiku-4-5" || strIncludes ml "haiku-4.5" then "Haiku 4.5"
  else if strIncludes ml "opus-4" || strIncludes ml "opus4" then "Opus 4"
  else if strIncludes ml "sonnet-4" || strIncludes ml "sonnet4" then "Sonnet 4"
  else if strIncludes ml "3-7-sonnet" || strIncludes ml "3.7" then "Sonnet 3.7"
  else if strIncludes ml "3-5-sonnet" || strIncludes ml "3.5-sonnet" then "Sonnet 3.5"
  else if strIncludes ml "3-5-haiku" || strIncludes ml "3.5-haiku" then "Haiku 3.5"
  else if strIncludes ml "opus" then "Opus 3"
  else if strIncludes ml "sonnet" then "Sonnet 3"
  else if strIncludes ml "haiku" then "Haiku 3"
  else model.take 20

/-- All four prices strictly positive. -/
def posPricing (p : ModelPricing) : Prop :=
  0 < p.input ∧ 0 < p.output ∧ 0 < p.cacheWrite ∧ 0 < p.cacheRead

instance : DecidablePred posPricing := fun p => by
  unfold posPricing; infer_instance

/-! Embedding: parser.ts — data model -/

/-- The `interface TokenUsage` (parser.ts lines 22-27). -/
structure TokenUsage where
  inputTokens : ℕ
  outputTokens : ℕ
  cacheCreationTokens : ℕ
  cacheReadTokens : ℕ
deriving DecidableEq, Repr

/-- The `interface UsageEntry` (parser.ts lines 29-37).  `timestamp` is
`Date.getTime()` milliseconds. -/
structure UsageEntry where
  timestamp : ℤ
  model : String
  usage : TokenUsage
  cost : ℚ
  sessionId : String
  project : String
  messageId : String
deriving DecidableEq, Repr

/-- The `interface SessionSummary` (parser.ts lines 39-48). -/
structure SessionSummary where
  sessionId : String
  project : String
  firstMessage : ℤ
  lastMessage : ℤ
  totalCost : ℚ
  totalTokens : TokenUsage
  messageCount : ℕ
  model : String
deriving DecidableEq, Repr

/-- Value type of `DailySummary.byModel` (parser.ts line 56). -/
structure DayModelAgg where
  cost : ℚ
  tokens : TokenUsage
deriving DecidableEq, Repr

/-- The `interface DailySummary` (parser.ts lines 50-57); the `byModel`
record is an association list in insertion order. -/
structure DailySummary where
  date : String
  totalCost : ℚ
  totalTokens : TokenUsage
  sessionCount : ℕ
  messageCount : ℕ
  byModel : List (String × DayModelAgg)
deriving DecidableEq, Repr

/-- The `interface HourlySummary` (parser.ts lines 59-64). -/
structure HourlySummary where
  hour : ℕ
  cost : ℚ
  tokens : ℕ
  messageCount : ℕ
deriving DecidableEq, Repr

/-- Value type of `UsageStats.byModel` (parser.ts line 73). -/
structure ModelAgg where
  cost : ℚ
  tokens : TokenUsage
  displayName : String
deriving DecidableEq, Repr

/-- The `interface UsageStats` (parser.ts lines 66-74).  Note the comment in
the source at line 67: the interface holds `messageCount`, not an
`entries` array. -/
structure UsageStats where
  messageCount : ℕ
  sessions : List SessionSummary
  daily : List DailySummary
  hourly : List HourlySummary
  totalCost : ℚ
  totalTokens : TokenUsage
  byModel : List (String × ModelAgg)
deriving DecidableEq, Repr

/-! Embedding: parser.ts — per-line parsing

One JSONL line, after `JSON.parse`, is modelled as a `RawRecord`
(`none` fields are absent JSON fields).  A line on which `JSON.parse`
throws is modelled as `none` at the `Option RawRecord` level.  The
record timestamp is idealized as already-parsed milliseconds
(`new Date(data.timestamp).getTime()`). -/

/-- The `usage` block: the four optional numeric token counts. -/
structure RawUsage where
  itok : Option ℕ
  otok : Option ℕ
  cctok : Option ℕ
  crtok : Option ℕ
deriving DecidableEq, Repr

/-- The nested `message` object: model identifier, usage block, id. -/
structure RawMessage where
  model : Option String
  usage : Option RawUsage
  id : Option String
deriving DecidableEq, Repr

/-- One parsed JSONL record (the fields parser.ts consumes). -/
structure RawRecord where
  type : String
  timestamp : ℤ
  sessionId : Option String
  cwd : Option String
  uuid : Option String
  message : Option RawMessage
deriving DecidableEq, Repr

/-- JS `x || d` for an optional string field: absent and the empty
string are both falsy. -/
def strOrDefault (o : Option String) (d : String) : String :=
  match o with
  | none => d
  | some s => if s = "" then d else s

/-- The body of the per-line loop of `parseJsonlFile`
(parser.ts lines 96-138): reject non-"assistant" records, records with
a falsy `message.usage` or `message.model`, and all-zero usage;
otherwise build the `UsageEntry`.  `message.id || data.uuid || "unknown"`
is the dedup fallback chain. -/
def parseRecord (data : RawRecord) : Option UsageEntry :=
  if data.type ≠ "assistant" then none
  else
    match data.message with
    | none => none
    | some message =>
      match message.usage, message.model with
      | some usage, some model =>
        if model = "" then none
        else
          let inputTokens := usage.itok.getD 0
          let outputTokens := usage.otok.getD 0
          let cacheCreationTokens := usage.cctok.getD 0
          let cacheReadTokens := usage.crtok.getD 0
          if inputTokens = 0 ∧ outputTokens = 0 ∧ cacheCreationTokens = 0 ∧ cacheReadTokens = 0 then
            none
          else
            some
              { timestamp := data.timestamp
                model := model
                usage :=
                  { inputTokens := inputTokens
                    outputTokens := outputTokens
                    cacheCreationTokens := cacheCreationTokens
                    cacheReadTokens := cacheReadTokens }
                cost := calculateCost model inputTokens outputTokens cacheCreationTokens cacheReadTokens
                sessionId := strOrDefault data.sessionId "unknown"
                project := strOrDefault data.cwd "unknown"
                messageId := strOrDefault message.id (strOrDefault data.uuid "unknown") }
      | _, _ => none

/-! Embedding: parser.ts — file cache and corpus loading -/

/-- Generic association-list upsert, modelling `Map.set` / object
property assignment: an existing key keeps its position, a new key is
appended (JS insertion order). -/
def setA {κ β : Type} [DecidableEq κ] : List (κ × β) → κ → β → List (κ × β)
  | [], key, v => [(key, v)]
  | (k, w) :: rest, key, v =>
    if k = key then (k, v) :: rest else (k, w) :: setA rest key v

/-- Generic association-list removal, modelling `Map.delete`. -/
def eraseA {κ β : Type} [DecidableEq κ] : List (κ × β) → κ → List (κ × β)
  | [], _ => []
  | (k, w) :: rest, key =>
    if k = key then rest else (k, w) :: eraseA rest key

/-- The observable content of one discovered `.jsonl` file: its
`mtimeMs` and its (JSON-parsed) lines. -/
structure FileData where
  mtime : ℤ
  lines : List (Option RawRecord)
deriving DecidableEq, Repr

/-- The filesystem visible to one scan: the discovered file paths in
scan order, each either readable (`some` content) or failing
`statSync`/`readFileSync` (`none`). -/
def FSModel : Type := List (String × Option FileData)

/-- The `interface FileCache` (parser.ts lines 7-10). -/
structure FileCacheEntry where
  mtime : ℤ
  entries : List UsageEntry
deriving DecidableEq, Repr

/-- The module-level `fileCache` map (parser.ts line 11). -/
def FCache : Type := List (String × FileCacheEntry)

/-- The successful-parse result for a readable file: run the per-line
parser over each line, keeping successes (parser.ts lines 90-142). -/
def entriesOfFile (fd : FileData) : List UsageEntry :=
  fd.lines.filterMap (fun o => o.bind parseRecord)

/-- Function `parseJsonlFile` (parser.ts lines 79-152) as a function of the
filesystem and the file cache: cache hit on equal mtime returns the
cached entries; otherwise re-parse and upsert; a file that cannot be
stat'ed or read evicts the cache entry and yields `[]` (the `catch`
branch) — the function is total, no error escapes. -/
def parseJsonlFile (fs : FSModel) (cache : FCache) (path : String) :
    List UsageEntry × FCache :=
  match lookupG fs path with
  | none => ([], eraseA cache path)
  | some none => ([], eraseA cache path)
  | some (some fd) =>
    match lookupG cache path with
    | some c =>
      if c.mtime = fd.mtime then (c.entries, cache)
      else
        let es := entriesOfFile fd
        (es, setA cache path ⟨fd.mtime, es⟩)
    | none =>
      let es := entriesOfFile fd
      (es, setA cache path ⟨fd.mtime, es⟩)

/-- Function `getMaxMtime` (parser.ts lines 182-195): maximum `mtimeMs` over the
stat-able files, starting from 0; vanished files are skipped. -/
def getMaxMtime (fs : FSModel) : ℤ :=
  fs.foldl
    (fun acc f =>
      match f.2 with
      | some fd => if acc < fd.mtime then fd.mtime else acc
      | none => acc)
    0

/-- The accumulation loop of `parseAllUsage` (parser.ts lines 219-224):
load every discovered file through the file cache, concatenating the
entries in scan order and threading the cache. -/
def loadAllFiles (fs : FSModel) (cache : FCache) : List UsageEntry × FCache :=
  fs.foldl
    (fun acc f =>
      let r := parseJsonlFile fs acc.2 f.1
      (acc.1 ++ r.1, r.2))
    ([], cache)

/-! Embedding: parser.ts — range filter and deduplication -/

/-- The range filter of `parseAllUsage` (parser.ts lines 229-236):
`timestamp >= since` and `timestamp <= until`, each applied only when
the bound is given. -/
def rangeFilter (entries : List UsageEntry) (since untilT : Option ℤ) :
    List UsageEntry :=
  let f1 :=
    match since with
    | some s => entries.filter (fun e => decide (s ≤ e.timestamp))
    | none => entries
  match untilT with
  | some u => f1.filter (fun e => decide (e.timestamp ≤ u))
  | none => f1

/-- The dedup key `` `${entry.sessionId}-${entry.messageId}` ``
(parser.ts line 246): a plain string concatenation. -/
def dedupKey (e : UsageEntry) : String := e.sessionId ++ "-" ++ e.messageId

/-- The `seenMessages` loop of `parseAllUsage` (parser.ts lines
239-251): keep the first occurrence of each dedup key, in list order. -/
def keepFirstSeen : List String → List UsageEntry → List UsageEntry
  | _, [] => []
  | seen, e :: rest =>
    if dedupKey e ∈ seen then keepFirstSeen seen rest
    else e :: keepFirstSeen (dedupKey e :: seen) rest

/-- Stable insertion into a sorted list: `a` goes after every leading
`b` with `le b a`.  Ties keep the earlier element first, as JS
`Array.prototype.sort` (stable since ES2019) does. -/
def insertStable {α : Type} (le : α → α → Bool) (a : α) : List α → List α
  | [] => [a]
  | b :: bs => if le b a then b :: insertStable le a bs else a :: b :: bs

/-- JS `Array.prototype.sort(cmp)` for a comparator that is a total
preorder, as stable insertion sort (a stable sort's output is unique,
so any stable sort models it). -/
def jsSortBy {α : Type} (le : α → α → Bool) (l : List α) : List α :=
  l.foldl (fun acc a => insertStable le a acc) []

/-- Step `filtered.sort((a, b) => b.timestamp.getTime() - a.timestamp.getTime())`
(parser.ts line 243): stable sort, timestamp descending. -/
def sortDescTs (l : List UsageEntry) : List UsageEntry :=
  jsSortBy (fun a b => decide (b.timestamp ≤ a.timestamp)) l

/-- Step `deduplicated.sort((a, b) => a.timestamp.getTime() - b.timestamp.getTime())`
(parser.ts line 254): stable sort, timestamp ascending. -/
def sortAscTs (l : List UsageEntry) : List UsageEntry :=
  jsSortBy (fun a b => decide (a.timestamp ≤ b.timestamp)) l

/-- The whole dedup step of `parseAllUsage` (parser.ts lines 238-254):
sort descending by timestamp, keep first-seen per key, re-sort
ascending. -/
def dedupEntries (l : List UsageEntry) : List UsageEntry :=
  sortAscTs (keepFirstSeen [] (sortDescTs l))

/-! Embedding: parser.ts — computeStats

`computeStats` (parser.ts lines 264-439).  The wall-clock/timezone
dependent pieces are explicit parameters:
  * `dayOf ts`   — the local `YYYY-MM-DD` string of a timestamp
    (parser.ts line 312),
  * `hourOf ts`  — the local hour-of-day (line 320),
  * `todayStart` — midnight of the current local day (lines 279-280). -/

/-- Pointwise sum of two token quadruples (the `+=` blocks). -/
def addTokens (a b : TokenUsage) : TokenUsage :=
  ⟨a.inputTokens + b.inputTokens, a.outputTokens + b.outputTokens,
   a.cacheCreationTokens + b.cacheCreationTokens,
   a.cacheReadTokens + b.cacheReadTokens⟩

/-- Total of the four kinds of one entry (hourly `tokens +=`,
parser.ts lines 326-327). -/
def tokenTotal (u : TokenUsage) : ℕ :=
  u.inputTokens + u.outputTokens + u.cacheCreationTokens + u.cacheReadTokens

/-- Value type of the `hourlyMap` (parser.ts line 276). -/
structure HourAgg where
  cost : ℚ
  tokens : ℕ
  messageCount : ℕ
deriving DecidableEq, Repr

/-- The mutable state of the main `for (const entry of entries)` loop of
`computeStats` (parser.ts lines 265-330). -/
structure StatsAccum where
  totalCost : ℚ
  totalTokens : TokenUsage
  byModel : List (String × ModelAgg)
  sessionMap : List (String × List UsageEntry)
  dailyMap : List (String × List UsageEntry)
  hourlyMap : List (ℕ × HourAgg)

/-- The empty loop state (parser.ts lines 265-276). -/
def initAccum : StatsAccum :=
  ⟨0, ⟨0, 0, 0, 0⟩, [], [], [], []⟩

/-- Operation `map.get(k).push(e)` with create-if-missing, preserving insertion
order (parser.ts lines 306-316). -/
def pushGroup {κ : Type} [DecidableEq κ]
    (m : List (κ × List UsageEntry)) (k : κ) (e : UsageEntry) :
    List (κ × List UsageEntry) :=
  match lookupG m k with
  | some l => setA m k (l ++ [e])
  | none => setA m k [e]

/-- One iteration of the main loop of `computeStats`
(parser.ts lines 282-330). -/
def statsStep (dayOf : ℤ → String) (hourOf : ℤ → ℕ) (todayStart : ℤ)
    (acc : StatsAccum) (e : UsageEntry) : StatsAccum :=
  let base := (lookupG acc.byModel e.model).getD
    ⟨0, ⟨0, 0, 0, 0⟩, getModelDisplayName e.model⟩
  let byModel := setA acc.byModel e.model
    { base with cost := base.cost + e.cost, tokens := addTokens base.tokens e.usage }
  let hourlyMap :=
    if todayStart ≤ e.timestamp then
      let h := hourOf e.timestamp
      let hb := (lookupG acc.hourlyMap h).getD ⟨0, 0, 0⟩
      setA acc.hourlyMap h
        ⟨hb.cost + e.cost, hb.tokens + tokenTotal e.usage, hb.messageCount + 1⟩
    else acc.hourlyMap
  { totalCost := acc.totalCost + e.cost
    totalTokens := addTokens acc.totalTokens e.usage
    byModel := byModel
    sessionMap := pushGroup acc.sessionMap e.sessionId e
    dailyMap := pushGroup acc.dailyMap (dayOf e.timestamp) e
    hourlyMap := hourlyMap }

/-- Running cost total over a list, in loop order. -/
def sumCosts (l : List UsageEntry) : ℚ :=
  l.foldl (fun c e => c + e.cost) 0

/-- Running token totals over a list, in loop order. -/
def sumTokens (l : List UsageEntry) : TokenUsage :=
  l.foldl (fun t e => addTokens t e.usage) ⟨0, 0, 0, 0⟩

/-- One session's summary (parser.ts lines 334-364): entries sorted
ascending by timestamp, summed, first/last extracted, model of the
chronologically last entry.  The group lists built by `pushGroup` are
never empty; the empty case is unreachable filler. -/
def sessionSummaryOf (sid : String) (es : List UsageEntry) : SessionSummary :=
  let sorted := jsSortBy (fun a b => decide (a.timestamp ≤ b.timestamp)) es
  match sorted.head?, sorted.getLast? with
  | some f, some l =>
    ⟨sid, f.project, f.timestamp, l.timestamp, sumCosts sorted,
     sumTokens sorted, sorted.length, l.model⟩
  | _, _ => ⟨sid, "unknown", 0, 0, 0, ⟨0, 0, 0, 0⟩, 0, "unknown"⟩

/-- The `dayByModel` accumulation of one daily group
(parser.ts lines 390-401). -/
def dayByModelOf (es : List UsageEntry) : List (String × DayModelAgg) :=
  es.foldl
    (fun m e =>
      let base := (lookupG m e.model).getD ⟨0, ⟨0, 0, 0, 0⟩⟩
      setA m e.model ⟨base.cost + e.cost, addTokens base.tokens e.usage⟩)
    []

/-- The number of distinct session ids in a day group, via the
`daySessions` set (parser.ts lines 380, 388, 408). -/
def distinctCount (l : List String) : ℕ :=
  (l.foldl (fun seen s => if s ∈ seen then seen else seen ++ [s]) []).length

/-- One day's summary (parser.ts lines 371-412). -/
def dailySummaryOf (date : String) (es : List UsageEntry) : DailySummary :=
  ⟨date, sumCosts es, sumTokens es, distinctCount (es.map (·.sessionId)),
   es.length, dayByModelOf es⟩

/-- Function `computeStats` (parser.ts lines 264-439). -/
def computeStats (dayOf : ℤ → String) (hourOf : ℤ → ℕ) (todayStart : ℤ)
    (entries : List UsageEntry) : UsageStats :=
  let acc := entries.foldl (statsStep dayOf hourOf todayStart) initAccum
  let sessions :=
    jsSortBy (fun a b => decide (b.lastMessage ≤ a.lastMessage))
      (acc.sessionMap.map (fun g => sessionSummaryOf g.1 g.2))
  let daily :=
    jsSortBy (fun a b => decide (b.date ≤ a.date))
      (acc.dailyMap.map (fun g => dailySummaryOf g.1 g.2))
  let hourly :=
    jsSortBy (fun a b => decide (a.hour ≤ b.hour))
      (acc.hourlyMap.map (fun g => HourlySummary.mk g.1 g.2.cost g.2.tokens g.2.messageCount))
  { messageCount := entries.length
    sessions := sessions
    daily := daily
    hourly := hourly
    totalCost := acc.totalCost
    totalTokens := acc.totalTokens
    byModel := acc.byModel }

/-! Embedding: parser.ts — parseAllUsage and its two caches -/

/-- Constant `STATS_CACHE_TTL` (parser.ts line 20). -/
def STATS_CACHE_TTL : ℤ := 4000

/-- The `interface StatsCache` entry (parser.ts lines 14-17). -/
structure StatsCacheEntry where
  timestamp : ℤ
  stats : UsageStats

/-- The module-level mutable state of parser.ts: `fileCache` (line 11),
`allEntriesCache` (line 18), `statsCache` (line 19). -/
structure ParserState where
  fileCache : FCache
  allEntriesCache : Option (ℤ × List UsageEntry)
  statsCache : List (String × StatsCacheEntry)

/-- The state at module load: all three caches empty. -/
def initialState : ParserState := ⟨[], none, []⟩

/-- The stats-cache key (parser.ts line 201):
`` `${since?.getTime() ?? "all"}-${until?.getTime() ?? "all"}` ``. -/
def cacheKey (since untilT : Option ℤ) : String :=
  (match since with
   | some t => toString t
   | none => "all")
    ++ "-"
    ++ (match untilT with
        | some t => toString t
        | none => "all")

/-- The recompute path of `parseAllUsage` (parser.ts lines 219-261):
load all files through the file cache, refresh `allEntriesCache`,
filter to the range, deduplicate, aggregate, store in the stats
cache. -/
def recomputeStats (dayOf : ℤ → String) (hourOf : ℤ → ℕ) (todayStart : ℤ)
    (now : ℤ) (fs : FSModel) (since untilT : Option ℤ)
    (σ : ParserState) (key : String) : UsageStats × ParserState :=
  let maxMtime := getMaxMtime fs
  let loaded := loadAllFiles fs σ.fileCache
  let filtered := rangeFilter loaded.1 since untilT
  let deduplicated := dedupEntries filtered
  let stats := computeStats dayOf hourOf todayStart deduplicated
  (stats,
   { fileCache := loaded.2
     allEntriesCache := some (maxMtime, loaded.1)
     statsCache := setA σ.statsCache key ⟨now, stats⟩ })

/-- Function `parseAllUsage` (parser.ts lines 197-262): TTL hit returns the
cached snapshot unchanged; on TTL expiry, an unchanged corpus
(`allEntriesCache.mtime >= maxMtime`) re-stamps the entry and returns
the same snapshot; otherwise recompute. -/
def parseAllUsage (dayOf : ℤ → String) (hourOf : ℤ → ℕ) (todayStart : ℤ)
    (now : ℤ) (fs : FSModel) (since untilT : Option ℤ)
    (σ : ParserState) : UsageStats × ParserState :=
  let key := cacheKey since untilT
  match lookupG σ.statsCache key with
  | some c =>
    if now - c.timestamp < STATS_CACHE_TTL then (c.stats, σ)
    else
      let maxMtime := getMaxMtime fs
      match σ.allEntriesCache with
      | some a =>
        if maxMtime ≤ a.1 then
          (c.stats, { σ with statsCache := setA σ.statsCache key ⟨now, c.stats⟩ })
        else recomputeStats dayOf hourOf todayStart now fs since untilT σ key
      | none => recomputeStats dayOf hourOf todayStart now fs since untilT σ key
  | none => recomputeStats dayOf hourOf todayStart now fs since untilT σ key

/-- The aggregation actually applied to a corpus for one query in the
recompute path (parser.ts lines 229-256): filter to the range first,
then deduplicate, then aggregate. -/
def queryStatsPure (dayOf : ℤ → String) (hourOf : ℤ → ℕ) (todayStart : ℤ)
    (entries : List UsageEntry) (since untilT : Option ℤ) : UsageStats :=
  computeStats dayOf hourOf todayStart (dedupEntries (rangeFilter entries since untilT))

/-- Modelled from the spec's words, for comparison with the code
(claim C1): "deduplicating the full corpus of events … and only then
filtering the deduplicated stream to the query's range". -/
def specDedupThenFilter (dayOf : ℤ → String) (hourOf : ℤ → ℕ) (todayStart : ℤ)
    (entries : List UsageEntry) (since untilT : Option ℤ) : UsageStats :=
  computeStats dayOf hourOf todayStart (rangeFilter (dedupEntries entries) since untilT)

/-! Embedding: parser.ts — formatting helpers -/

/-- JS `Number.prototype.toFixed(2)` on an exact rational: round to the
nearest hundredth (the costs the tests exercise are exact, so binary
rounding artifacts do not arise). -/
def toFixed2 (q : ℚ) : String :=
  let n : ℤ := round (q * 100)
  let sign := if n < 0 then "-" else ""
  let m := n.natAbs
  sign ++ toString (m / 100) ++ "." ++ (if m % 100 < 10 then "0" else "") ++ toString (m % 100)

/-- JS `Number.prototype.toFixed(1)` on an exact rational. -/
def toFixed1 (q : ℚ) : String :=
  let n : ℤ := round (q * 10)
  let sign := if n < 0 then "-" else ""
  let m := n.natAbs
  sign ++ toString (m / 10) ++ "." ++ toString (m % 10)

/-- Function `formatCost` (parser.ts lines 441-453). -/
def formatCost (cost : ℚ) : String :=
  if 1000 ≤ cost then "$" ++ toFixed2 (cost / 1000) ++ "K"
  else if 1 ≤ cost then "$" ++ toFixed2 cost
  else if 1 / 100 ≤ cost then "$" ++ toFixed2 cost
  else toFixed2 (cost * 100) ++ "¢"

/-- Function `formatTokens` (parser.ts lines 455-463); its argument is always a
token-count sum. -/
def formatTokens (tokens : ℕ) : String :=
  if 1000000 ≤ tokens then toFixed2 ((tokens : ℚ) / 1000000) ++ "M"
  else if 1000 ≤ tokens then toFixed1 ((tokens : ℚ) / 1000) ++ "K"
  else toString tokens

/-! Embedding: index.tsx — the non-interactive (`--json`) output path -/

/-- The JS property read `stats.entries` (index.tsx line 518).  The
snapshot returned by `parseAllUsage` is the object literal of
`computeStats` (parser.ts lines 430-439), whose properties are exactly
`messageCount`, `sessions`, `daily`, `hourly`, `totalCost`,
`totalTokens` and `byModel`; the `UsageStats` interface (lines 66-74)
declares the same keys, and its line-67 comment records that the old
`entries` array was replaced by `messageCount`.  Reading an absent
property yields `undefined`, modelled as `none`. -/
def statsEntriesProp (_ : UsageStats) : Option (List UsageEntry) := none

/-- One value of the serialized `breakdown` record (index.tsx
lines 519-527). -/
structure JsonBreakdownEntry where
  cost : String
  tokens : String
deriving DecidableEq, Repr

/-- The structured document of the non-interactive mode (index.tsx
lines 511-528). -/
structure JsonOutput where
  totalCost : String
  totalTokens : String
  sessions : ℕ
  messages : ℕ
  breakdown : List (String × JsonBreakdownEntry)
deriving DecidableEq, Repr

/-- Building the non-interactive output object (index.tsx lines
511-528), in JS property-evaluation order.  The `messages` property
evaluates `stats.entries.length`; `.length` of `undefined` throws a
`TypeError`, modelled as `Except.error`, so the object literal never
completes. -/
def jsonModeOutput (stats : UsageStats) : Except String JsonOutput :=
  let tc := formatCost stats.totalCost
  let tt := formatTokens (tokenTotal stats.totalTokens)
  let sess := stats.sessions.length
  match statsEntriesProp stats with
  | none => Except.error "TypeError: undefined is not an object (evaluating stats.entries.length)"
  | some entries =>
    Except.ok
      { totalCost := tc
        totalTokens := tt
        sessions := sess
        messages := entries.length
        breakdown := stats.byModel.map
          (fun g => (g.2.displayName,
            ⟨formatCost g.2.cost, formatTokens (tokenTotal g.2.tokens)⟩)) }

/-! Concrete inputs used by witnesses and counterexamples. -/

/-- A fixed day-key function for concrete runs. -/
def cDayOf : ℤ → String := fun _ => "2025-01-01"

/-- A fixed hour function for concrete runs. -/
def cHourOf : ℤ → ℕ := fun _ => 0

/-- An assistant record at timestamp 1, session "s1", message "m1". -/
def rawA : RawRecord :=
  ⟨"assistant", 1, some "s1", some "/p", none,
   some ⟨some "m", some ⟨some 1, none, none, none⟩, some "m1"⟩⟩

/-- A later duplicate of the same logical message, timestamp 10. -/
def rawB : RawRecord :=
  ⟨"assistant", 10, some "s1", some "/p", none,
   some ⟨some "m", some ⟨some 2, none, none, none⟩, some "m1"⟩⟩

/-- A one-file corpus holding the duplicate pair. -/
def fs1 : FSModel := [("a.jsonl", some ⟨100, [some rawA, some rawB]⟩)]

/-- Entry with session id "a-b" and message id "c". -/
def ce1 : UsageEntry := ⟨1, "m", ⟨1, 0, 0, 0⟩, 0, "a-b", "p", "c"⟩

/-- Entry with session id "a" and message id "b-c": a distinct pair whose
concatenated dedup key coincides with `ce1`'s. -/
def ce2 : UsageEntry := ⟨2, "m", ⟨1, 0, 0, 0⟩, 0, "a", "p", "b-c"⟩

/-- Earlier duplicate of the ("s1", "m1") message. -/
def w1 : UsageEntry := ⟨1, "m", ⟨1, 0, 0, 0⟩, 0, "s1", "p", "m1"⟩

/-- Later duplicate of the ("s1", "m1") message, different counts. -/
def w2 : UsageEntry := ⟨2, "m", ⟨2, 0, 0, 0⟩, 0, "s1", "p", "m1"⟩

/-- The spec's cost scenario record: one assistant message on
"claude-3-5-sonnet-20241022" with a million input and a million output
tokens and no cache tokens. -/
def sonnetRec : RawRecord :=
  ⟨"assistant", 0, some "s1", some "/p", none,
   some ⟨some "claude-3-5-sonnet-20241022", some ⟨some 1000000, some 1000000, none, none⟩,
     some "m1"⟩⟩

/-- The entry `parseRecord` produces from `sonnetRec`. -/
def sonnetEntry : UsageEntry :=
  ⟨0, "claude-3-5-sonnet-20241022", ⟨1000000, 1000000, 0, 0⟩,
   calculateCost "claude-3-5-sonnet-20241022" 1000000 1000000 0 0, "s1", "/p", "m1"⟩

/-- A filesystem whose one discovered file fails `statSync`/`readFileSync`. -/
def fs9 : FSModel := [("gone.jsonl", none)]

/-- A file cache holding a stale entry for that path. -/
def cache9 : FCache := [("gone.jsonl", ⟨1, []⟩)]

/-! Lemmas about the stable sort. -/

theorem insertStable_perm {α : Type} (le : α → α → Bool) (a : α) (l : List α) :
    (insertStable le a l).Perm (a :: l) := by
  induction l with
  | nil => simp [insertStable]
  | cons b bs ih =>
    unfold insertStable
    by_cases hba : le b a
    · simpa [hba] using (ih.cons b).trans (List.Perm.swap a b bs)
    · simp [hba]

theorem foldl_insertStable_perm {α : Type} (le : α → α → Bool) (l acc : List α) :
    (l.foldl (fun acc a => insertStable le a acc) acc).Perm (acc ++ l) := by
  induction l generalizing acc with
  | nil => simp
  | cons a l ih =>
    simp only [List.foldl_cons]
    refine (ih (insertStable le a acc)).trans ?_
    refine (((insertStable_perm le a acc).append_right l).trans ?_)
    exact List.perm_middle.symm

/-- The sort is a permutation of its input. -/
theorem jsSortBy_perm {α : Type} (le : α → α → Bool) (l : List α) :
    (jsSortBy le l).Perm l := by
  simpa using foldl_insertStable_perm le l []

theorem insertStable_pairwise {α : Type} (le : α → α → Bool)
    (htot : ∀ a b, le a b = true ∨ le b a = true)
    (htrans : ∀ a b c, le a b = true → le b c = true → le a c = true)
    (a : α) (l : List α) (h : l.Pairwise (fun x y => le x y = true)) :
    (insertStable le a l).Pairwise (fun x y => le x y = true) := by
  induction l with
  | nil => simp [insertStable]
  | cons b bs ih =>
    rcases List.pairwise_cons.mp h with ⟨h1, h2⟩
    unfold insertStable
    by_cases hba : le b a
    · simp only [hba, if_true]
      refine List.pairwise_cons.mpr ⟨?_, ih h2⟩
      intro y hy
      have hmem : y ∈ a :: bs := (insertStable_perm le a bs).mem_iff.mp hy
      rcases List.mem_cons.mp hmem with rfl | hyb
      · exact hba
      · exact h1 y hyb
    · have hab : le a b = true := (htot a b).resolve_right (by simpa using hba)
      simp only [hba, if_false]
      refine List.pairwise_cons.mpr ⟨?_, h⟩
      intro y hy
      rcases List.mem_cons.mp hy with rfl | hyb
      · exact hab
      · exact htrans a b y hab (h1 y hyb)

theorem foldl_insertStable_pairwise {α : Type} (le : α → α → Bool)
    (htot : ∀ a b, le a b = true ∨ le b a = true)
    (htrans : ∀ a b c, le a b = true → le b c = true → le a c = true)
    (l acc : List α) (hacc : acc.Pairwise (fun x y => le x y = true)) :
    (l.foldl (fun acc a => insertStable le a acc) acc).Pairwise
      (fun x y => le x y = true) := by
  induction l generalizing acc with
  | nil => simpa
  | cons a l ih =>
    simp only [List.foldl_cons]
    exact ih _ (insertStable_pairwise le htot htrans a acc hacc)

/-- The sort's output is ordered by the comparator when the comparator
is a total preorder. -/
theorem jsSortBy_pairwise {α : Type} (le : α → α → Bool)
    (htot : ∀ a b, le a b = true ∨ le b a = true)
    (htrans : ∀ a b c, le a b = true → le b c = true → le a c = true)
    (l : List α) :
    (jsSortBy le l).Pairwise (fun x y => le x y = true) :=
  foldl_insertStable_pairwise le htot htrans l [] (by simp)

/-- A list permutation-equal to an explicit pair is one of its two
orderings. -/
theorem perm_pair_cases {α : Type} (l : List α) (a b : α) (h : l.Perm [a, b]) :
    l = [a, b] ∨ l = [b, a] := by
  match l, h.length_eq with
  | [x, y], _ =>
    have hx : x ∈ [a, b] := h.mem_iff.mp (by simp)
    rcases List.mem_pair.mp hx with h1 | h1
    · left
      rw [h1] at h ⊢
      have h2 : ([y] : List α).Perm [b] := h.cons_inv
      rw [List.perm_singleton.mp h2]
    · right
      rw [h1] at h ⊢
      have h2 : ([y] : List α).Perm [a] := (h.trans (List.Perm.swap b a [])).cons_inv
      rw [List.perm_singleton.mp h2]

/-! Lemmas about the first-seen dedup loop. -/

theorem keepFirstSeen_filter_of_seen (k : String) (l : List UsageEntry) :
    ∀ seen, k ∈ seen →
      (keepFirstSeen seen l).filter (fun e => decide (dedupKey e = k)) = [] := by
  induction l with
  | nil => intro seen _; simp [keepFirstSeen]
  | cons e rest ih =>
    intro seen hk
    unfold keepFirstSeen
    by_cases hs : dedupKey e ∈ seen
    · simp only [hs, if_true]
      exact ih seen hk
    · have hne : dedupKey e ≠ k := fun heq => hs (heq ▸ hk)
      simp only [hs, if_false]
      rw [List.filter_cons_of_neg (by simpa using hne)]
      exact ih _ (List.mem_cons_of_mem _ hk)

theorem keepFirstSeen_filter_of_notSeen (k : String) (l : List UsageEntry) :
    ∀ seen, k ∉ seen →
      (keepFirstSeen seen l).filter (fun e => decide (dedupKey e = k)) =
        (l.filter (fun e => decide (dedupKey e = k))).take 1 := by
  induction l with
  | nil => intro seen _; simp [keepFirstSeen]
  | cons e rest ih =>
    intro seen hk
    unfold keepFirstSeen
    by_cases hs : dedupKey e ∈ seen
    · have hne : dedupKey e ≠ k := fun heq => hk (heq ▸ hs)
      simp only [hs, if_true]
      rw [List.filter_cons_of_neg (by simpa using hne)]
      exact ih seen hk
    · simp only [hs, if_false]
      by_cases hek : dedupKey e = k
      · rw [List.filter_cons_of_pos (by simpa using hek),
          List.filter_cons_of_pos (by simpa using hek),
          keepFirstSeen_filter_of_seen k rest _ (by rw [← hek]; exact List.mem_cons_self _ _)]
        simp
      · rw [List.filter_cons_of_neg (by simpa using hek),
          List.filter_cons_of_neg (by simpa using hek)]
        refine ih _ ?_
        intro hmem
        rcases List.mem_cons.mp hmem with h1 | h1
        · exact hek h1.symm
        · exact hk h1

/-- Totality of the descending-timestamp comparator. -/
theorem descTs_total (a b : UsageEntry) :
    (fun a b : UsageEntry => decide (b.timestamp ≤ a.timestamp)) a b = true ∨
    (fun a b : UsageEntry => decide (b.timestamp ≤ a.timestamp)) b a = true := by
  simp only [decide_eq_true_eq]
  exact le_total b.timestamp a.timestamp

/-- Transitivity of the descending-timestamp comparator. -/
theorem descTs_trans (a b c : UsageEntry) :
    (fun a b : UsageEntry => decide (b.timestamp ≤ a.timestamp)) a b = true →
    (fun a b : UsageEntry => decide (b.timestamp ≤ a.timestamp)) b c = true →
    (fun a b : UsageEntry => decide (b.timestamp ≤ a.timestamp)) a c = true := by
  simp only [decide_eq_true_eq]
  intro h1 h2
  exact h2.trans h1

/-- When a corpus holds exactly two events with a given dedup key and
their timestamps differ, the dedup step keeps exactly the later one. -/
theorem dedupEntries_filter_pair (l : List UsageEntry) (e1 e2 : UsageEntry)
    (ht : e1.timestamp < e2.timestamp)
    (hf : (l.filter (fun e => decide (dedupKey e = dedupKey e1))).Perm [e1, e2]) :
    (dedupEntries l).filter (fun e => decide (dedupKey e = dedupKey e1)) = [e2] := by
  have hperm : (sortDescTs l).Perm l := jsSortBy_perm _ l
  have hfilter_perm :
      ((sortDescTs l).filter (fun e => decide (dedupKey e = dedupKey e1))).Perm [e1, e2] :=
    (hperm.filter _).trans hf
  have hpw : ((sortDescTs l).filter (fun e => decide (dedupKey e = dedupKey e1))).Pairwise
      (fun x y => (fun a b : UsageEntry => decide (b.timestamp ≤ a.timestamp)) x y = true) :=
    List.Pairwise.sublist (List.filter_sublist _)
      (jsSortBy_pairwise _ descTs_total descTs_trans l)
  rcases perm_pair_cases _ e1 e2 hfilter_perm with hcase | hcase
  · exfalso
    rw [hcase] at hpw
    have h21 := (List.pairwise_cons.mp hpw).1 e2 (by simp)
    simp only [decide_eq_true_eq] at h21
    exact absurd h21 (not_le.mpr ht)
  · have hkeep : ((keepFirstSeen [] (sortDescTs l)).filter
        (fun e => decide (dedupKey e = dedupKey e1))) = [e2] := by
      rw [keepFirstSeen_filter_of_notSeen (dedupKey e1) _ [] (by simp), hcase]
      rfl
    have hfinal : ((dedupEntries l).filter
        (fun e => decide (dedupKey e = dedupKey e1))).Perm [e2] := by
      unfold dedupEntries
      exact ((jsSortBy_perm _ _).filter _).trans (hkeep ▸ List.Perm.refl _)
    exact List.perm_singleton.mp hfinal

/-! Lemmas about association lists and the caches. -/

theorem lookupG_setA_self {κ β : Type} [DecidableEq κ] (m : List (κ × β)) (k : κ) (v : β) :
    lookupG (setA m k v) k = some v := by
  induction m with
  | nil => simp [setA, lookupG]
  | cons kv rest ih =>
    unfold setA
    by_cases hk : kv.1 = k
    · simp [lookupG, hk]
    · simp [lookupG, hk, ih]

theorem lookupG_mem {κ β : Type} [DecidableEq κ] (m : List (κ × β)) (k : κ) (v : β)
    (h : lookupG m k = some v) : v ∈ m.map Prod.snd := by
  induction m with
  | nil => simp [lookupG] at h
  | cons kv rest ih =>
    rw [lookupG] at h
    by_cases hk : kv.1 = k
    · rw [if_pos hk] at h
      simp [← Option.some.inj h]
    · rw [if_neg hk] at h
      simp [ih h]

/-! Lemmas about pricing resolution. -/

theorem partialMatch_mem (m : List (String × ModelPricing)) (ml : String) (p : ModelPricing)
    (h : partialMatch m ml = some p) : p ∈ m.map Prod.snd := by
  induction m with
  | nil => simp [partialMatch] at h
  | cons kv rest ih =>
    rw [partialMatch] at h
    split at h
    · simp [← Option.some.inj h]
    · simp [ih h]

/-- Every quadruple in the known-model table is strictly positive. -/
theorem table_pos : ∀ p ∈ MODEL_PRICING.map Prod.snd, posPricing p := by
  intro p hp
  fin_cases hp <;>
    exact ⟨by norm_num, by norm_num, by norm_num, by norm_num⟩

/-- Every branch of `getPricing` yields a strictly positive quadruple. -/
theorem getPricing_pos_all (m : String) : posPricing (getPricing m) := by
  unfold getPricing
  split
  · next p hp => exact table_pos p (lookupG_mem _ _ _ hp)
  · next =>
    dsimp only
    split
    · next p hp => exact partialMatch_mem _ _ _ hp |> table_pos p
    · next =>
      split_ifs <;>
        exact ⟨by norm_num [DEFAULT_PRICING], by norm_num [DEFAULT_PRICING],
          by norm_num [DEFAULT_PRICING], by norm_num [DEFAULT_PRICING]⟩

/-! Lemmas about the aggregation sums. -/

/-- A projection that each fold step advances by an additive weight is,
after the whole fold, advanced by the summed weights. -/
theorem foldl_additive {α γ σ : Type} [AddCommMonoid γ] (step : σ → α → σ)
    (proj : σ → γ) (w : α → γ)
    (hstep : ∀ s a, proj (step s a) = proj s + w a) :
    ∀ (l : List α) (s : σ), proj (l.foldl step s) = proj s + (l.map w).sum := by
  intro l
  induction l with
  | nil => intro s; simp
  | cons a l ih =>
    intro s
    simp only [List.foldl_cons, List.map_cons, List.sum_cons]
    rw [ih, hstep, add_assoc]

/-- Upserting a value that grows the looked-up (or default) value by `c`
grows the map's value sum by `c`. -/
theorem sum_setA_add {κ β γ : Type} [DecidableEq κ] [AddCommMonoid γ]
    (f : β → γ) (m : List (κ × β)) (k : κ) (new d0 : β) (c : γ)
    (h : f new = f ((lookupG m k).getD d0) + c) (h0 : f d0 = 0) :
    ((setA m k new).map (fun g => f g.2)).sum = (m.map (fun g => f g.2)).sum + c := by
  induction m with
  | nil =>
    simp only [lookupG, Option.getD_none, h0, zero_add] at h
    simp [setA, h]
  | cons kv rest ih =>
    obtain ⟨k1, v1⟩ := kv
    rw [lookupG] at h
    unfold setA
    by_cases hk : k1 = k
    · rw [if_pos hk] at h ⊢
      simp only [Option.getD_some] at h
      simp only [List.map_cons, List.sum_cons, h]
      abel
    · rw [if_neg hk] at h ⊢
      simp only [List.map_cons, List.sum_cons, ih h, add_assoc]

theorem pushGroup_eq_setA {κ : Type} [DecidableEq κ]
    (m : List (κ × List UsageEntry)) (k : κ) (e : UsageEntry) :
    pushGroup m k e = setA m k (((lookupG m k).getD []) ++ [e]) := by
  unfold pushGroup
  cases h : lookupG m k <;> simp [h]

theorem sum_pushGroup {κ γ : Type} [DecidableEq κ] [AddCommMonoid γ]
    (w : UsageEntry → γ) (m : List (κ × List UsageEntry)) (k : κ) (e : UsageEntry) :
    ((pushGroup m k e).map (fun g => (g.2.map w).sum)).sum
      = (m.map (fun g => (g.2.map w).sum)).sum + w e := by
  rw [pushGroup_eq_setA]
  refine sum_setA_add (fun l => (l.map w).sum) m k _ [] (w e) ?_ (by simp)
  simp

theorem statsStep_modelCost (d : ℤ → String) (h : ℤ → ℕ) (t : ℤ)
    (acc : StatsAccum) (e : UsageEntry) :
    (((statsStep d h t acc e).byModel).map (fun g => g.2.cost)).sum
      = (acc.byModel.map (fun g => g.2.cost)).sum + e.cost := by
  unfold statsStep
  dsimp only
  refine sum_setA_add (fun a => a.cost) acc.byModel e.model _
    ⟨0, ⟨0, 0, 0, 0⟩, getModelDisplayName e.model⟩ e.cost ?_ ?_ <;> rfl

theorem statsStep_modelTok (sel : TokenUsage → ℕ)
    (hadd : ∀ a b, sel (addTokens a b) = sel a + sel b)
    (hzero : sel ⟨0, 0, 0, 0⟩ = 0)
    (d : ℤ → String) (h : ℤ → ℕ) (t : ℤ) (acc : StatsAccum) (e : UsageEntry) :
    (((statsStep d h t acc e).byModel).map (fun g => sel g.2.tokens)).sum
      = (acc.byModel.map (fun g => sel g.2.tokens)).sum + sel e.usage := by
  unfold statsStep
  dsimp only
  refine sum_setA_add (fun a => sel a.tokens) acc.byModel e.model _
    ⟨0, ⟨0, 0, 0, 0⟩, getModelDisplayName e.model⟩ (sel e.usage) ?_ hzero
  exact hadd ((lookupG acc.byModel e.model).getD
    ⟨0, ⟨0, 0, 0, 0⟩, getModelDisplayName e.model⟩).tokens e.usage

theorem statsStep_dailySum {γ : Type} [AddCommMonoid γ] (w : UsageEntry → γ)
    (d : ℤ → String) (h : ℤ → ℕ) (t : ℤ) (acc : StatsAccum) (e : UsageEntry) :
    (((statsStep d h t acc e).dailyMap).map (fun g => (g.2.map w).sum)).sum
      = ((acc.dailyMap).map (fun g => (g.2.map w).sum)).sum + w e := by
  unfold statsStep
  dsimp only
  exact sum_pushGroup w _ _ _

theorem sumCosts_eq (l : List UsageEntry) :
    sumCosts l = (l.map (fun e => e.cost)).sum := by
  have := foldl_additive (fun (c : ℚ) (e : UsageEntry) => c + e.cost) id
    (fun e => e.cost) (fun s a => rfl) l 0
  simpa [sumCosts] using this

theorem sumTokens_sel_eq (sel : TokenUsage → ℕ)
    (hadd : ∀ a b, sel (addTokens a b) = sel a + sel b)
    (hzero : sel ⟨0, 0, 0, 0⟩ = 0) (l : List UsageEntry) :
    sel (sumTokens l) = (l.map (fun e => sel e.usage)).sum := by
  have := foldl_additive (fun (t : TokenUsage) (e : UsageEntry) => addTokens t e.usage) sel
    (fun e => sel e.usage) (fun s a => hadd _ _) l ⟨0, 0, 0, 0⟩
  simpa [sumTokens, hzero] using this

theorem computeStats_totalCost_eq (d : ℤ → String) (h : ℤ → ℕ) (t : ℤ)
    (entries : List UsageEntry) :
    (computeStats d h t entries).totalCost = (entries.map (fun e => e.cost)).sum := by
  show (entries.foldl (statsStep d h t) initAccum).totalCost = _
  rw [foldl_additive (statsStep d h t) (fun s => s.totalCost) (fun e => e.cost)
    (fun s a => rfl) entries initAccum]
  simp [initAccum]

theorem computeStats_byModelCost_eq (d : ℤ → String) (h : ℤ → ℕ) (t : ℤ)
    (entries : List UsageEntry) :
    ((computeStats d h t entries).byModel.map (fun g => g.2.cost)).sum
      = (entries.map (fun e => e.cost)).sum := by
  show (((entries.foldl (statsStep d h t) initAccum).byModel).map (fun g => g.2.cost)).sum = _
  rw [foldl_additive (statsStep d h t) (fun s => ((s.byModel).map (fun g => g.2.cost)).sum)
    (fun e => e.cost) (fun s a => statsStep_modelCost d h t s a) entries initAccum]
  simp [initAccum]

theorem computeStats_dailyCost_eq (d : ℤ → String) (h : ℤ → ℕ) (t : ℤ)
    (entries : List UsageEntry) :
    ((computeStats d h t entries).daily.map (fun x => x.totalCost)).sum
      = (entries.map (fun e => e.cost)).sum := by
  have hperm : ((computeStats d h t entries).daily.map (fun x => x.totalCost)).Perm
      ((((entries.foldl (statsStep d h t) initAccum).dailyMap).map
        (fun g => dailySummaryOf g.1 g.2)).map (fun x => x.totalCost)) :=
    List.Perm.map _ (jsSortBy_perm _ _)
  rw [hperm.sum_eq, List.map_map]
  have hfun : ((fun x => x.totalCost) ∘
      (fun (g : String × List UsageEntry) => dailySummaryOf g.1 g.2))
      = fun g => (g.2.map (fun e => e.cost)).sum := by
    funext g
    simp [dailySummaryOf, sumCosts_eq]
  rw [hfun]
  rw [foldl_additive (statsStep d h t)
    (fun s => ((s.dailyMap).map (fun g => (g.2.map (fun e => e.cost)).sum)).sum)
    (fun e => e.cost) (fun s a => statsStep_dailySum _ d h t s a) entries initAccum]
  simp [initAccum]

theorem computeStats_totalTok_eq (sel : TokenUsage → ℕ)
    (hadd : ∀ a b, sel (addTokens a b) = sel a + sel b)
    (hzero : sel ⟨0, 0, 0, 0⟩ = 0)
    (d : ℤ → String) (h : ℤ → ℕ) (t : ℤ) (entries : List UsageEntry) :
    sel (computeStats d h t entries).totalTokens = (entries.map (fun e => sel e.usage)).sum := by
  show sel (entries.foldl (statsStep d h t) initAccum).totalTokens = _
  rw [foldl_additive (statsStep d h t) (fun s => sel s.totalTokens) (fun e => sel e.usage)
    (fun s a => hadd s.totalTokens a.usage) entries initAccum]
  simp [initAccum, hzero]

theorem computeStats_byModelTok_eq (sel : TokenUsage → ℕ)
    (hadd : ∀ a b, sel (addTokens a b) = sel a + sel b)
    (hzero : sel ⟨0, 0, 0, 0⟩ = 0)
    (d : ℤ → String) (h : ℤ → ℕ) (t : ℤ) (entries : List UsageEntry) :
    ((computeStats d h t entries).byModel.map (fun g => sel g.2.tokens)).sum
      = (entries.map (fun e => sel e.usage)).sum := by
  show (((entries.foldl (statsStep d h t) initAccum).byModel).map
    (fun g => sel g.2.tokens)).sum = _
  rw [foldl_additive (statsStep d h t) (fun s => ((s.byModel).map (fun g => sel g.2.tokens)).sum)
    (fun e => sel e.usage) (fun s a => statsStep_modelTok sel hadd hzero d h t s a)
    entries initAccum]
  simp [initAccum]

theorem computeStats_dailyTok_eq (sel : TokenUsage → ℕ)
    (hadd : ∀ a b, sel (addTokens a b) = sel a + sel b)
    (hzero : sel ⟨0, 0, 0, 0⟩ = 0)
    (d : ℤ → String) (h : ℤ → ℕ) (t : ℤ) (entries : List UsageEntry) :
    ((computeStats d h t entries).daily.map (fun x => sel x.totalTokens)).sum
      = (entries.map (fun e => sel e.usage)).sum := by
  have hperm : ((computeStats d h t entries).daily.map (fun x => sel x.totalTokens)).Perm
      ((((entries.foldl (statsStep d h t) initAccum).dailyMap).map
        (fun g => dailySummaryOf g.1 g.2)).map (fun x => sel x.totalTokens)) :=
    List.Perm.map _ (jsSortBy_perm _ _)
  rw [hperm.sum_eq, List.map_map]
  have hfun : ((fun x => sel x.totalTokens) ∘
      (fun (g : String × List UsageEntry) => dailySummaryOf g.1 g.2))
      = fun g => (g.2.map (fun e => sel e.usage)).sum := by
    funext g
    simp [dailySummaryOf, sumTokens_sel_eq sel hadd hzero]
  rw [hfun]
  rw [foldl_additive (statsStep d h t)
    (fun s => ((s.dailyMap).map (fun g => (g.2.map (fun e => sel e.usage)).sum)).sum)
    (fun e => sel e.usage) (fun s a => statsStep_dailySum _ d h t s a) entries initAccum]
  simp [initAccum]

/-! Claim theorems. -/

/-- C1, counterexample: the claim says the returned statistics are
computed by deduplicating the full corpus first and only then filtering
to the query's range, so an event whose later-timestamp duplicate lies
outside the range is not counted.  On the corpus `fs1` (one file, two
duplicates of the same ("s1", "m1") message at timestamps 1 and 10)
with range `until = 5`, `parseAllUsage` returns a snapshot counting 1
message, while the dedup-then-filter pipeline the claim describes
(`specDedupThenFilter`) counts 0 — so the claim is false of the code. -/
theorem dedupFirst_spec_pipeline_disagrees :
    (parseAllUsage cDayOf cHourOf 0 0 fs1 none (some 5) initialState).1.messageCount = 1 ∧
    (specDedupThenFilter cDayOf cHourOf 0 (loadAllFiles fs1 []).1 none (some 5)).messageCount
      = 0 :=
  ⟨by decide, by decide⟩

/-- C1, amended: for every query with an optional date range, the
returned statistics are computed by first filtering the corpus to the
query's range and only then deduplicating (parser.ts lines 229-254), so
an event whose later-timestamp duplicate lies outside the range IS
counted — the earlier in-range occurrence survives deduplication —
whereas the spec's dedup-then-filter order would drop it. -/
theorem range_filtered_earlier_duplicate_is_counted
    (dayOf : ℤ → String) (hourOf : ℤ → ℕ) (todayStart : ℤ)
    (e1 e2 : UsageEntry) (u : ℤ)
    (hk : dedupKey e1 = dedupKey e2) (h1 : e1.timestamp ≤ u) (h2 : u < e2.timestamp) :
    (queryStatsPure dayOf hourOf todayStart [e1, e2] none (some u)).messageCount = 1 ∧
    (specDedupThenFilter dayOf hourOf todayStart [e1, e2] none (some u)).messageCount = 0 := by
  have hnot : ¬ (e2.timestamp ≤ u) := not_le.mpr h2
  constructor
  · have hrf : rangeFilter [e1, e2] none (some u) = [e1] := by
      simp [rangeFilter, h1, hnot]
    have hdd : dedupEntries [e1] = [e1] := by
      simp [dedupEntries, sortDescTs, sortAscTs, jsSortBy, insertStable, keepFirstSeen]
    simp [queryStatsPure, hrf, hdd, computeStats]
  · have hsort : sortDescTs [e1, e2] = [e2, e1] := by
      simp [sortDescTs, jsSortBy, insertStable, not_le.mpr (lt_of_le_of_lt h1 h2)]
    have hdd : dedupEntries [e1, e2] = [e2] := by
      simp [dedupEntries, hsort, keepFirstSeen, hk, sortAscTs, jsSortBy, insertStable]
    have hrf : rangeFilter [e2] none (some u) = [] := by
      simp [rangeFilter, hnot]
    simp [specDedupThenFilter, hdd, hrf, computeStats]

/-- C1, witness for the amended theorem at the concrete duplicates `w1`
(timestamp 1) and `w2` (timestamp 2) with range `until = 1`. -/
theorem range_filtered_earlier_duplicate_is_counted_witness :
    (queryStatsPure cDayOf cHourOf 0 [w1, w2] none (some 1)).messageCount = 1 ∧
    (specDedupThenFilter cDayOf cHourOf 0 [w1, w2] none (some 1)).messageCount = 0 :=
  range_filtered_earlier_duplicate_is_counted cDayOf cHourOf 0 w1 w2 1
    (by decide) (by decide) (by decide)

/-- C2: for two records in the processed corpus with identical
`sessionId` and `messageId` but different timestamps (and no other
record sharing their dedup key), the dedup step of the aggregation
retains exactly one event for that pair — the later-timestamped one,
with its token counts and cost. -/
theorem dedup_retains_latest_of_pair (l : List UsageEntry) (e1 e2 : UsageEntry)
    (hsid : e1.sessionId = e2.sessionId) (hmid : e1.messageId = e2.messageId)
    (ht : e1.timestamp < e2.timestamp)
    (hf : (l.filter (fun e => decide (dedupKey e = dedupKey e1))).Perm [e1, e2]) :
    (dedupEntries l).filter (fun e => decide (dedupKey e = dedupKey e1)) = [e2] :=
  dedupEntries_filter_pair l e1 e2 ht hf

/-- C2, witness: the ("s1", "m1") duplicates `w1` and `w2`. -/
theorem dedup_retains_latest_of_pair_witness :
    (dedupEntries [w1, w2]).filter (fun e => decide (dedupKey e = dedupKey w1)) = [w2] :=
  dedup_retains_latest_of_pair [w1, w2] w1 w2 (by decide) (by decide) (by decide) (by decide)

/-- C3: the non-interactive (`--json`) output path never serializes a
document.  Building the output object evaluates `stats.entries.length`
(index.tsx line 518), but the snapshot returned by `parseAllUsage` has
a `messageCount` field and no `entries` field (parser.ts lines 66-74
and 430-439), so the property read yields `undefined` and `.length`
throws a `TypeError` before the document is completed — for every
filesystem, clock and cache state. -/
theorem jsonMode_never_serializes (dayOf : ℤ → String) (hourOf : ℤ → ℕ)
    (todayStart now : ℤ) (fs : FSModel) (σ : ParserState) :
    jsonModeOutput (parseAllUsage dayOf hourOf todayStart now fs none none σ).1 =
      Except.error "TypeError: undefined is not an object (evaluating stats.entries.length)" :=
  rfl

/-- C4: for every list of events (and every day-key and hour function),
the snapshot's `totalCost` equals the sum of `cost` over the per-model
entries and the sum of `totalCost` over the per-day entries, and each
of the four token kinds of `totalTokens` equals the corresponding sums
over per-model and per-day entries. -/
theorem computeStats_totals_match_breakdowns (dayOf : ℤ → String) (hourOf : ℤ → ℕ)
    (todayStart : ℤ) (entries : List UsageEntry) :
    ((computeStats dayOf hourOf todayStart entries).totalCost =
        ((computeStats dayOf hourOf todayStart entries).byModel.map (fun g => g.2.cost)).sum ∧
      (computeStats dayOf hourOf todayStart entries).totalCost =
        ((computeStats dayOf hourOf todayStart entries).daily.map (fun x => x.totalCost)).sum) ∧
    ((computeStats dayOf hourOf todayStart entries).totalTokens.inputTokens =
        ((computeStats dayOf hourOf todayStart entries).byModel.map
          (fun g => g.2.tokens.inputTokens)).sum ∧
      (computeStats dayOf hourOf todayStart entries).totalTokens.inputTokens =
        ((computeStats dayOf hourOf todayStart entries).daily.map
          (fun x => x.totalTokens.inputTokens)).sum) ∧
    ((computeStats dayOf hourOf todayStart entries).totalTokens.outputTokens =
        ((computeStats dayOf hourOf todayStart entries).byModel.map
          (fun g => g.2.tokens.outputTokens)).sum ∧
      (computeStats dayOf hourOf todayStart entries).totalTokens.outputTokens =
        ((computeStats dayOf hourOf todayStart entries).daily.map
          (fun x => x.totalTokens.outputTokens)).sum) ∧
    ((computeStats dayOf hourOf todayStart entries).totalTokens.cacheCreationTokens =
        ((computeStats dayOf hourOf todayStart entries).byModel.map
          (fun g => g.2.tokens.cacheCreationTokens)).sum ∧
      (computeStats dayOf hourOf todayStart entries).totalTokens.cacheCreationTokens =
        ((computeStats dayOf hourOf todayStart entries).daily.map
          (fun x => x.totalTokens.cacheCreationTokens)).sum) ∧
    ((computeStats dayOf hourOf todayStart entries).totalTokens.cacheReadTokens =
        ((computeStats dayOf hourOf todayStart entries).byModel.map
          (fun g => g.2.tokens.cacheReadTokens)).sum ∧
      (computeStats dayOf hourOf todayStart entries).totalTokens.cacheReadTokens =
        ((computeStats dayOf hourOf todayStart entries).daily.map
          (fun x => x.totalTokens.cacheReadTokens)).sum) := by
  refine ⟨⟨?_, ?_⟩, ⟨?_, ?_⟩, ⟨?_, ?_⟩, ⟨?_, ?_⟩, ⟨?_, ?_⟩⟩
  · exact (computeStats_totalCost_eq dayOf hourOf todayStart entries).trans
      (computeStats_byModelCost_eq dayOf hourOf todayStart entries).symm
  · exact (computeStats_totalCost_eq dayOf hourOf todayStart entries).trans
      (computeStats_dailyCost_eq dayOf hourOf todayStart entries).symm
  · exact (computeStats_totalTok_eq (fun u => u.inputTokens) (fun a b => rfl) rfl
      dayOf hourOf todayStart entries).trans
      (computeStats_byModelTok_eq (fun u => u.inputTokens) (fun a b => rfl) rfl
        dayOf hourOf todayStart entries).symm
  · exact (computeStats_totalTok_eq (fun u => u.inputTokens) (fun a b => rfl) rfl
      dayOf hourOf todayStart entries).trans
      (computeStats_dailyTok_eq (fun u => u.inputTokens) (fun a b => rfl) rfl
        dayOf hourOf todayStart entries).symm
  · exact (computeStats_totalTok_eq (fun u => u.outputTokens) (fun a b => rfl) rfl
      dayOf hourOf todayStart entries).trans
      (computeStats_byModelTok_eq (fun u => u.outputTokens) (fun a b => rfl) rfl
        dayOf hourOf todayStart entries).symm
  · exact (computeStats_totalTok_eq (fun u => u.outputTokens) (fun a b => rfl) rfl
      dayOf hourOf todayStart entries).trans
      (computeStats_dailyTok_eq (fun u => u.outputTokens) (fun a b => rfl) rfl
        dayOf hourOf todayStart entries).symm
  · exact (computeStats_totalTok_eq (fun u => u.cacheCreationTokens) (fun a b => rfl) rfl
      dayOf hourOf todayStart entries).trans
      (computeStats_byModelTok_eq (fun u => u.cacheCreationTokens) (fun a b => rfl) rfl
        dayOf hourOf todayStart entries).symm
  · exact (computeStats_totalTok_eq (fun u => u.cacheCreationTokens) (fun a b => rfl) rfl
      dayOf hourOf todayStart entries).trans
      (computeStats_dailyTok_eq (fun u => u.cacheCreationTokens) (fun a b => rfl) rfl
        dayOf hourOf todayStart entries).symm
  · exact (computeStats_totalTok_eq (fun u => u.cacheReadTokens) (fun a b => rfl) rfl
      dayOf hourOf todayStart entries).trans
      (computeStats_byModelTok_eq (fun u => u.cacheReadTokens) (fun a b => rfl) rfl
        dayOf hourOf todayStart entries).symm
  · exact (computeStats_totalTok_eq (fun u => u.cacheReadTokens) (fun a b => rfl) rfl
      dayOf hourOf todayStart entries).trans
      (computeStats_dailyTok_eq (fun u => u.cacheReadTokens) (fun a b => rfl) rfl
        dayOf hourOf todayStart entries).symm

/-- C5: with the underlying filesystem unchanged, querying twice for a
key not previously cached returns the identical snapshot, whatever the
two clock readings: within the time-to-live the cached snapshot is
returned directly, and after it expires the unchanged
`allEntriesCache.mtime >= maxMtime` check re-stamps the entry and
returns the same snapshot; the second conjunct shows the stats cache
still maps the key to that same snapshot afterwards. -/
theorem parseAllUsage_idempotent_unchanged_fs (dayOf : ℤ → String) (hourOf : ℤ → ℕ)
    (todayStart now1 now2 : ℤ) (fs : FSModel) (since untilT : Option ℤ) (σ0 : ParserState)
    (h : lookupG σ0.statsCache (cacheKey since untilT) = none) :
    ((parseAllUsage dayOf hourOf todayStart now2 fs since untilT
        (parseAllUsage dayOf hourOf todayStart now1 fs since untilT σ0).2).1 =
      (parseAllUsage dayOf hourOf todayStart now1 fs since untilT σ0).1) ∧
    ((lookupG (parseAllUsage dayOf hourOf todayStart now2 fs since untilT
        (parseAllUsage dayOf hourOf todayStart now1 fs since untilT σ0).2).2.statsCache
        (cacheKey since untilT)).map (fun c => c.stats) =
      some (parseAllUsage dayOf hourOf todayStart now1 fs since untilT σ0).1) := by
  have h1 : parseAllUsage dayOf hourOf todayStart now1 fs since untilT σ0 =
      recomputeStats dayOf hourOf todayStart now1 fs since untilT σ0
        (cacheKey since untilT) := by
    simp only [parseAllUsage]
    rw [h]
  rw [h1]
  have hst : (recomputeStats dayOf hourOf todayStart now1 fs since untilT σ0
      (cacheKey since untilT)).2.statsCache =
      setA σ0.statsCache (cacheKey since untilT)
        ⟨now1, (recomputeStats dayOf hourOf todayStart now1 fs since untilT σ0
          (cacheKey since untilT)).1⟩ := by
    simp [recomputeStats]
  have hae : (recomputeStats dayOf hourOf todayStart now1 fs since untilT σ0
      (cacheKey since untilT)).2.allEntriesCache =
      some (getMaxMtime fs, (loadAllFiles fs σ0.fileCache).1) := by
    simp [recomputeStats]
  have hlook : lookupG ((recomputeStats dayOf hourOf todayStart now1 fs since untilT σ0
      (cacheKey since untilT)).2.statsCache) (cacheKey since untilT) =
      some ⟨now1, (recomputeStats dayOf hourOf todayStart now1 fs since untilT σ0
        (cacheKey since untilT)).1⟩ := by
    rw [hst]
    exact lookupG_setA_self _ _ _
  simp only [parseAllUsage]
  rw [hlook]
  by_cases httl : now2 - now1 < STATS_CACHE_TTL
  · simp only [httl, if_true]
    refine ⟨trivial, ?_⟩
    rw [hlook]
    rfl
  · simp only [httl, if_false]
    rw [hae]
    simp only [ge_iff_le, le_refl, if_pos]
    refine ⟨trivial, ?_⟩
    rw [lookupG_setA_self]
    rfl

/-- C5, witness: two calls on the one-file corpus `fs1` from the initial
empty state, 10 seconds apart (past the 4-second time-to-live). -/
theorem parseAllUsage_idempotent_unchanged_fs_witness :
    ((parseAllUsage cDayOf cHourOf 0 10000 fs1 none none
        (parseAllUsage cDayOf cHourOf 0 0 fs1 none none initialState).2).1 =
      (parseAllUsage cDayOf cHourOf 0 0 fs1 none none initialState).1) ∧
    ((lookupG (parseAllUsage cDayOf cHourOf 0 10000 fs1 none none
        (parseAllUsage cDayOf cHourOf 0 0 fs1 none none initialState).2).2.statsCache
        (cacheKey none none)).map (fun c => c.stats) =
      some (parseAllUsage cDayOf cHourOf 0 0 fs1 none none initialState).1) :=
  parseAllUsage_idempotent_unchanged_fs cDayOf cHourOf 0 0 10000 fs1 none none
    initialState rfl

/-- C6: pricing resolution is total — for every non-empty model
identifier, `getPricing` returns a quadruple whose four fields are all
strictly positive; unknown models fall through to heuristic or default
pricing, never an error. -/
theorem getPricing_total_positive (m : String) (h : m ≠ "") :
    posPricing (getPricing m) :=
  getPricing_pos_all m

/-- C6, witness: an identifier nowhere in the table. -/
theorem getPricing_total_positive_witness :
    ("claude-next-gen" ≠ "") ∧ posPricing (getPricing "claude-next-gen") :=
  ⟨by decide, getPricing_total_positive "claude-next-gen" (by decide)⟩

/-- C7: "claude-opus-4-5-experimental" has no exact entry in the table,
and resolves through the heuristic steps to the Opus 4.5 quadruple
(5, 25, 6.25, 0.5), which differs from the default quadruple. -/
theorem getPricing_opus45_heuristic_match :
    lookupG MODEL_PRICING "claude-opus-4-5-experimental" = none ∧
    getPricing "claude-opus-4-5-experimental" = ⟨5, 25, 6.25, 0.5⟩ ∧
    (⟨5, 25, 6.25, 0.5⟩ : ModelPricing) ≠ DEFAULT_PRICING := by
  refine ⟨rfl, rfl, ?_⟩
  intro hEq
  have hinput := congrArg ModelPricing.input hEq
  rw [DEFAULT_PRICING] at hinput
  norm_num at hinput

/-- C8: every successfully parsed event's cost equals the sum over the
four token kinds of (count / 1,000,000) × price from the resolved
quadruple; the spec's scenario record (`sonnetRec`) parses to a cost of
exactly 18 dollars; and `formatCost 18 = "$18.00"`. -/
theorem parseRecord_cost_formula_and_scenario :
    (∀ rec e, parseRecord rec = some e →
      e.cost = (e.usage.inputTokens : ℚ) / 1000000 * (getPricing e.model).input
        + (e.usage.outputTokens : ℚ) / 1000000 * (getPricing e.model).output
        + (e.usage.cacheCreationTokens : ℚ) / 1000000 * (getPricing e.model).cacheWrite
        + (e.usage.cacheReadTokens : ℚ) / 1000000 * (getPricing e.model).cacheRead)
    ∧ (parseRecord sonnetRec).map (fun e => e.cost) = some 18
    ∧ formatCost 18 = "$18.00" := by
  refine ⟨?_, ?_, ?_⟩
  · intro rec e h
    simp only [parseRecord] at h
    repeat' split at h
    all_goals first
      | exact Option.noConfusion h
      | (cases Option.some.inj h
         simp [calculateCost])
  · have hp : parseRecord sonnetRec = some sonnetEntry := rfl
    rw [hp]
    have hg : getPricing "claude-3-5-sonnet-20241022" = ⟨3, 15, 3.75, 0.3⟩ := by rfl
    simp only [Option.map_some']
    rw [show sonnetEntry.cost =
      calculateCost "claude-3-5-sonnet-20241022" 1000000 1000000 0 0 from rfl]
    rw [calculateCost, hg]
    norm_num
  · unfold formatCost
    rw [if_neg (by norm_num), if_pos (by norm_num)]
    unfold toFixed2
    have h1 : ((18 : ℚ) * 100) = ((1800 : ℤ) : ℚ) := by norm_num
    rw [h1, round_intCast]
    decide

/-- C8, witness: the formula instantiated at the parsed scenario
record. -/
theorem parseRecord_cost_formula_and_scenario_witness :
    parseRecord sonnetRec = some sonnetEntry ∧
    sonnetEntry.cost =
      (sonnetEntry.usage.inputTokens : ℚ) / 1000000 * (getPricing sonnetEntry.model).input
        + (sonnetEntry.usage.outputTokens : ℚ) / 1000000 * (getPricing sonnetEntry.model).output
        + (sonnetEntry.usage.cacheCreationTokens : ℚ) / 1000000
            * (getPricing sonnetEntry.model).cacheWrite
        + (sonnetEntry.usage.cacheReadTokens : ℚ) / 1000000
            * (getPricing sonnetEntry.model).cacheRead :=
  ⟨rfl, parseRecord_cost_formula_and_scenario.1 sonnetRec sonnetEntry rfl⟩

/-- C9: a file that cannot be stat'ed or read (absent from the
filesystem view, or present but unreadable) makes the file-cache load
evict any existing cache entry for that path and return an empty event
list; `parseJsonlFile` is a total function, so the condition never
escalates into an error reaching the caller. -/
theorem parseJsonlFile_unreadable_evicts (fs : FSModel) (cache : FCache) (path : String)
    (h : lookupG fs path = none ∨ lookupG fs path = some none) :
    parseJsonlFile fs cache path = ([], eraseA cache path) := by
  rcases h with h | h <;> simp [parseJsonlFile, h]

/-- C9, witness: the vanished file `fs9`/`cache9`. -/
theorem parseJsonlFile_unreadable_evicts_witness :
    (lookupG fs9 "gone.jsonl" = none ∨ lookupG fs9 "gone.jsonl" = some none) ∧
    parseJsonlFile fs9 cache9 "gone.jsonl" = ([], eraseA cache9 "gone.jsonl") :=
  ⟨Or.inr (by decide), parseJsonlFile_unreadable_evicts fs9 cache9 "gone.jsonl"
    (Or.inr (by decide))⟩

/-- C10: the dedup key is the single string `sessionId ++ "-" ++
messageId`, so the distinct pairs ("a-b", "c") and ("a", "b-c")
collide: `ce1` and `ce2` are treated as duplicates and only the
later-timestamped `ce2` survives deduplication. -/
theorem dedupKey_concat_collision :
    (ce1.sessionId ≠ ce2.sessionId ∧ ce1.messageId ≠ ce2.messageId) ∧
    dedupKey ce1 = dedupKey ce2 ∧
    dedupEntries [ce1, ce2] = [ce2] :=
  ⟨⟨by decide, by decide⟩, by decide, by decide⟩

end ClaudeCost
